import Mathlib

/-!
Verification of the duckduckgo-ai OpenAI-compatible gateway.

Shallow embedding of:
* `db_manager.py`  — the ApiKey store (create / delete / validate / list_all)
  over a relational table, modelled as an explicit list of rows plus an
  auto-increment counter.  Both SQL dialect branches (PostgreSQL
  `UPDATE … RETURNING` and SQLite `SELECT` + `UPDATE`) have the same
  sequential semantics, embedded once; the concurrency-relevant difference
  is modelled separately by an action-level trace semantics.
* `router/dependencies.py` — the admin-token and api-key access checks.
* `router/chat.py` — model resolution, prompt extraction, the buffered
  completion envelope and the streaming frame generator.
* `router/keys.py` — the DELETE /api-keys/{key} route.

Machine integers do not overflow anywhere in this code; counters and
timestamps are `Nat`.  Fallible paths return `Except`/explicit status values.
-/

namespace DdgAi

/-- A row of the `openai_api_keys` table (see `initialize_db` in
`db_manager.py`): id (auto-increment primary key), key (UNIQUE NOT NULL),
description, created_at, last_used_at (NULL until first validation),
usage_count (DEFAULT 0). -/
structure ApiKeyRow where
  id : Nat
  key : String
  description : Option String
  createdAt : Nat
  lastUsedAt : Option Nat
  usageCount : Nat
deriving Repr, DecidableEq

/-- The key table plus the auto-increment id sequence (`AUTOINCREMENT` /
`SERIAL`: handed-out ids only grow, deleted ids are never reused). -/
structure Store where
  rows : List ApiKeyRow
  nextId : Nat
deriving Repr, DecidableEq

/-- Initial state: empty table, id sequence starts at 1. -/
def initStore : Store := ⟨[], 1⟩

/-- Result record of `create_api_key` (`db_manager.py`).  In bypass mode the
returned dict has only `key` and `description`, so `id` / `createdAt` are
`none` there. -/
structure CreatedKey where
  id : Option Nat
  key : String
  description : Option String
  createdAt : Option Nat
deriving Repr, DecidableEq

namespace DbManager

/-- `create_api_key(key, description)` from `db_manager.py`.
Bypass mode (`IGNPRE_API_KEYS`): returns `{"key": key, "description": d}`
without touching the store.  Otherwise `INSERT INTO openai_api_keys` —
the UNIQUE constraint on `key` makes the insert raise on a duplicate
(surfaced as `Except.error`); on success the full persisted record is
fetched back and returned. -/
def create_api_key (bypass : Bool) (s : Store) (key : String)
    (description : Option String) (now : Nat) :
    Except String (CreatedKey × Store) :=
  if bypass then
    .ok (⟨none, key, description, none⟩, s)
  else if s.rows.any (fun r => r.key == key) then
    .error "UNIQUE constraint failed: openai_api_keys.key"
  else
    let row : ApiKeyRow := ⟨s.nextId, key, description, now, none, 0⟩
    .ok (⟨some row.id, key, description, some now⟩,
         ⟨s.rows ++ [row], s.nextId + 1⟩)

/-- `delete_api_key(key)` from `db_manager.py`.
Bypass mode returns `True`.  Otherwise `DELETE FROM openai_api_keys WHERE
key = ?` and `deleted = cursor.rowcount > 0` (rowcount is the number of
removed rows, i.e. old length minus remaining length). -/
def delete_api_key (bypass : Bool) (s : Store) (key : String) :
    Bool × Store :=
  if bypass then (true, s)
  else
    let remaining := s.rows.filter (fun r => !(r.key == key))
    (decide (remaining.length < s.rows.length), ⟨remaining, s.nextId⟩)

/-- The per-row effect of the validation `UPDATE … SET usage_count =
usage_count + 1, last_used_at = <current time> WHERE key = ?`. -/
def validateUpdate (key : String) (now : Nat) (r : ApiKeyRow) : ApiKeyRow :=
  if r.key == key then
    { r with usageCount := r.usageCount + 1, lastUsedAt := some now }
  else r

/-- `validate_api_key(key)` from `db_manager.py`.
Bypass mode returns `True`.  Otherwise both dialect branches have the same
sequential meaning: the rows matching `key` get `usage_count + 1` and
`last_used_at = now`, and the returned boolean is whether a matching row
exists (PostgreSQL: one `UPDATE … RETURNING id`; SQLite: `SELECT id` then a
conditional `UPDATE`). -/
def validate_api_key (bypass : Bool) (s : Store) (key : String) (now : Nat) :
    Bool × Store :=
  if bypass then (true, s)
  else if s.rows.any (fun r => r.key == key) then
    (true, ⟨s.rows.map (validateUpdate key now), s.nextId⟩)
  else (false, s)

/-- Insert a row into a list kept sorted by descending `created_at`
(the `ORDER BY created_at DESC` of `get_all_api_keys`). -/
def insertByCreatedDesc (r : ApiKeyRow) : List ApiKeyRow → List ApiKeyRow
  | [] => [r]
  | x :: xs =>
    if x.createdAt ≤ r.createdAt then r :: x :: xs
    else x :: insertByCreatedDesc r xs

/-- `get_all_api_keys()` from `db_manager.py`: bypass mode returns `[]`,
otherwise all rows ordered newest-first by creation time. -/
def get_all_api_keys (bypass : Bool) (s : Store) : List ApiKeyRow :=
  if bypass then []
  else s.rows.foldr insertByCreatedDesc []

end DbManager

/-! ## Access control (`router/dependencies.py`) -/

/-- Outcome of an access check as the client sees it: the token on
success, an `HTTPException` 401/403 raised by the dependency body, or the
422 FastAPI answers when request validation rejects a missing required
header before the body runs. -/
inductive AuthResult where
  | ok (token : String)
  | unauthorized
  | forbidden
  | unprocessable
deriving Repr, DecidableEq

/-- The character list of the literal `"Bearer "`. -/
def bearerChars : List Char := ['B', 'e', 'a', 'r', 'e', 'r', ' ']

/-- `not authorization or not authorization.startswith("Bearer ")` for a
present header value: empty, or not starting with `Bearer `. -/
def headerMalformed (a : String) : Bool :=
  a.data.isEmpty || !(bearerChars.isPrefixOf a.data)

/-- `authorization.split(" ")[1]`.  Under the guard that the header starts
with `"Bearer "` (whose single space is the first space of the string),
Python's `split(" ")[1]` is exactly the run of characters after that prefix
up to the next space: element 0 is `"Bearer"` and element 1 is what stands
between the first and the second space (or the end). -/
def bearerWord (a : String) : String :=
  ⟨(a.data.drop 7).takeWhile (fun c => c ≠ ' ')⟩

/-- The body of `validate_admin_token` from `router/dependencies.py`, as
invoked by FastAPI with the header value `a` (the parameter is
`authorization: str = Header(...)`, so the body only ever sees a present
header): bypass mode returns `""`; an empty or non-`Bearer `-prefixed
value raises 401; then `authorization.split(" ")[1]` is compared with
`settings.ADMIN_TOKEN` — mismatch raises 403, match returns the token. -/
def validate_admin_token (bypass : Bool) (adminToken : String)
    (a : String) : AuthResult :=
  if bypass then .ok ""
  else if headerMalformed a then .unauthorized
  else
    let token := bearerWord a
    if token == adminToken then .ok token else .forbidden

/-- The admin check at the route boundary.  `Header(...)` declares the
`Authorization` header required, so FastAPI answers 422 to a request
without it and never invokes the dependency body — bypass mode or not;
with the header present, its value is passed to `validate_admin_token`. -/
def admin_route_auth (bypass : Bool) (adminToken : String)
    (authorization : Option String) : AuthResult :=
  match authorization with
  | none => .unprocessable
  | some a => validate_admin_token bypass adminToken a

/-- The body of `validate_api_key` from `router/dependencies.py`, invoked
by FastAPI with the present header value `a`: bypass mode returns `""`
without consulting the store; an empty or non-`Bearer `-prefixed value
raises 401; then `db_manager.validate_api_key(token)` decides — `False`
raises 401, `True` returns the token.  The (possibly mutated) store is
threaded through. -/
def validate_api_key_dep (bypass : Bool) (s : Store)
    (a : String) (now : Nat) : AuthResult × Store :=
  if bypass then (.ok "", s)
  else if headerMalformed a then (.unauthorized, s)
  else
    let token := bearerWord a
    let res := DbManager.validate_api_key bypass s token now
    if res.1 then (.ok token, res.2) else (.unauthorized, res.2)

/-- The key check at the route boundary: as with the admin check, a
request with no `Authorization` header is answered 422 by request
validation before the dependency body (and its bypass branch) runs. -/
def chat_route_auth (bypass : Bool) (s : Store)
    (authorization : Option String) (now : Nat) : AuthResult × Store :=
  match authorization with
  | none => (.unprocessable, s)
  | some a => validate_api_key_dep bypass s a now

/-! ## Chat gateway (`router/chat.py`) -/

/-- The fixed allow-list `settings.AVAILABLE_MODELS` (`config.py`); the
dict's values equal its keys, so the key list carries all information. -/
def AVAILABLE_MODELS : List String :=
  ["o3-mini", "gpt-4o-mini", "llama-3.3-70b", "claude-3-haiku",
   "mixtral-8x7b"]

/-- One message of a chat request. -/
structure ChatMsg where
  role : String
  content : String
deriving Repr, DecidableEq

/-- `prompt = request.messages[-1].content if request.messages else ""`:
the content of the last message, or `""` for an empty list. -/
def extractPrompt (messages : List ChatMsg) : String :=
  match messages.getLast? with
  | some m => m.content
  | none => ""

/-- `model = request.model if request.model and request.model in
settings.AVAILABLE_MODELS else settings.DEFAULT_MODEL`.  `none` stands for
an absent or null model field (an absent field receives the pydantic
default `settings.DEFAULT_MODEL`, which resolves to the default either
way); `some ""` is falsy in Python, hence the emptiness test. -/
def resolveModel (defaultModel : String) (reqModel : Option String) :
    String :=
  match reqModel with
  | none => defaultModel
  | some m =>
    if m ≠ "" ∧ m ∈ AVAILABLE_MODELS then m else defaultModel

/-- A server-sent-event frame of the streaming response, one per
`yield "data: …"` of `ddgs_streamer`.  A chunk frame carries the chunk
envelope `{id, object: "chat.completion.chunk", created, model,
choices: [{delta: {content}}]}`; an error frame carries
`{error: true, message}`. -/
inductive Frame where
  | sentinelBegin
  | sentinelDone
  | chunk (id : String) (object : String) (created : Nat) (model : String)
      (deltaContent : String)
  | errorFrame (error : Bool) (message : String)
deriving Repr, DecidableEq

/-- The chunk-envelope frame built in the loop body of `ddgs_streamer`. -/
def mkChunkFrame (model : String) (now : Nat) (token : String) : Frame :=
  .chunk ("cmpl-" ++ toString (now * 1000)) "chat.completion.chunk" now
    model token

/-- The chunk frames for the tokens the provider yielded, in arrival
order. -/
def chunkFrames (model : String) (now : Nat) : List String → List Frame
  | [] => []
  | t :: ts => mkChunkFrame model now t :: chunkFrames model now ts

/-- `ddgs_streamer` from `router/chat.py`.  The provider
(`DDGS().chat_yield`) is modelled by the finite list of chunks it yields
before either finishing normally (`failure = none`) or raising an
exception whose description is `failure = some msg`.  The generator emits
`data: [BEGIN]`, then one chunk frame per provider chunk, then — only when
the provider raised — one `{error: true, message}` frame, then
`data: [DONE]`.  `now` stands for the wall clock read for the envelope
timestamps. -/
def ddgs_streamer (model : String) (now : Nat) (chunks : List String)
    (failure : Option String) : List Frame :=
  Frame.sentinelBegin ::
    (chunkFrames model now chunks ++
      (match failure with
       | some msg => [Frame.errorFrame true msg]
       | none => []) ++
      [Frame.sentinelDone])

/-- One choice of the buffered completion envelope:
`{message: {role: "assistant", content}, finish_reason: "stop",
index: 0}`. -/
structure Choice where
  message : ChatMsg
  finish_reason : String
  index : Nat
deriving Repr, DecidableEq

/-- The buffered `ChatCompletionResponse` envelope. -/
structure ChatEnvelope where
  id : String
  object : String
  created : Nat
  model : String
  choices : List Choice
deriving Repr, DecidableEq

/-- An `HTTPException(status_code, detail)`. -/
structure HttpError where
  status : Nat
  detail : String
deriving Repr, DecidableEq

/-- Starlette's `str(HTTPException)` is `f"{status_code}: {detail}"`;
the handler's outer `except Exception` interpolates it via `str(e)`. -/
def httpErrorText (e : HttpError) : String :=
  toString e.status ++ ": " ++ e.detail

/-- The buffered (stream=false) branch of `chat_completions` in
`router/chat.py`.  The provider `DDGS().chat(prompt, model)` is modelled as
a function to `Except String String` (error = exception description).  On
success the single envelope is built; on provider failure the inner
`except` raises `HTTPException(500, "Ошибка генерации ответа: " + str(e))`,
which the handler's outer `except Exception` catches (FastAPI's
`HTTPException` is an `Exception`) and re-wraps as
`HTTPException(500, "Внутренняя ошибка сервера: " + str(e))`. -/
def chat_completions_buffered (messages : List ChatMsg)
    (reqModel : Option String) (defaultModel : String)
    (provider : String → String → Except String String) (now : Nat) :
    Except HttpError ChatEnvelope :=
  let prompt := extractPrompt messages
  let model := resolveModel defaultModel reqModel
  match provider prompt model with
  | .ok result =>
    .ok ⟨"cmpl-" ++ toString (now * 1000), "chat.completion", now, model,
         [⟨⟨"assistant", result⟩, "stop", 0⟩]⟩
  | .error e =>
    let inner : HttpError := ⟨500, "Ошибка генерации ответа: " ++ e⟩
    .error ⟨500, "Внутренняя ошибка сервера: " ++ httpErrorText inner⟩

/-! ## Key-management route (`router/keys.py`) -/

/-- The `{"detail": …}` body of a successful delete. -/
structure MessageResponse where
  detail : String
deriving Repr, DecidableEq

/-- The `DELETE /api-keys/{key}` handler from `router/keys.py` (past admin
auth): bypass mode answers success without touching the store; otherwise
`db_manager.delete_api_key(key)` runs and a miss raises
`HTTPException(404, "API ключ не найден")`. -/
def delete_api_key_route (bypass : Bool) (s : Store) (key : String) :
    (Except HttpError MessageResponse) × Store :=
  if bypass then (.ok ⟨"API ключ удален"⟩, s)
  else
    let res := DbManager.delete_api_key bypass s key
    if res.1 then (.ok ⟨"API ключ удален"⟩, res.2)
    else (.error ⟨404, "API ключ не найден"⟩, res.2)

/-! ## Storage-level trace semantics for concurrent validation

`validate_api_key` touches the store through atomic storage statements:
the PostgreSQL branch is the single statement
`UPDATE … SET usage_count = usage_count + 1 … RETURNING id`; the SQLite
branch is `SELECT id WHERE key = ?` followed (on a hit) by the single
statement `UPDATE … SET usage_count = usage_count + 1 …`.  In both
dialects the increment itself is one atomic read-modify-write statement
over the stored count, never a count read in the client followed by a
write.  Concurrent executions interleave these statements. -/

/-- An atomic storage statement issued by `validate_api_key`. -/
inductive DbAction where
  | checkExists (key : String)
  | atomicIncr (key : String) (now : Nat)
deriving Repr, DecidableEq

/-- Effect of one atomic statement on the store.  The existence check reads
only; the increment statement bumps every matching row in place. -/
def applyAction (s : Store) : DbAction → Store
  | .checkExists _ => s
  | .atomicIncr key now => ⟨s.rows.map (DbManager.validateUpdate key now), s.nextId⟩

/-- Run a trace of atomic statements left to right. -/
def runTrace (s : Store) (trace : List DbAction) : Store :=
  trace.foldl applyAction s

/-- The statement sequence one SQLite-branch `validate_api_key(key)` call
issues when the key exists throughout (which holds when only validations
run: they never remove rows). -/
def sqliteValidateScript (key : String) (now : Nat) : List DbAction :=
  [.checkExists key, .atomicIncr key now]

/-- The statement sequence one PostgreSQL-branch `validate_api_key(key)`
call issues: the single atomic update-and-return. -/
def pgValidateScript (key : String) (now : Nat) : List DbAction :=
  [.atomicIncr key now]

/-- `Interleaving threads trace`: `trace` is an interleaving of the
per-thread statement sequences `threads` — each step extends the trace
with the next pending statement of some thread, preserving every thread's
internal order. -/
inductive Interleaving : List (List DbAction) → List DbAction → Prop where
  | done : Interleaving [] []
  | dropNil {ls t} : Interleaving ls t → Interleaving ([] :: ls) t
  | pick {a rest ls t} : Interleaving (rest :: ls) t →
      Interleaving ((a :: rest) :: ls) (a :: t)
  | perm {ls ls' t} : List.Perm ls ls' → Interleaving ls' t →
      Interleaving ls t

/-- Total usage count stored for a key (with the uniqueness invariant,
the count of its single row). -/
def usageOf (s : Store) (key : String) : Nat :=
  (s.rows.map (fun r => if r.key == key then r.usageCount else 0)).sum

/-- Number of rows whose key is `key`. -/
def rowsMatching (s : Store) (key : String) : Nat :=
  s.rows.countP (fun r => r.key == key)

/-- Number of increment statements for `key` in a trace. -/
def incrCount (key : String) (trace : List DbAction) : Nat :=
  trace.countP (fun a => match a with
    | .atomicIncr k _ => k == key
    | _ => false)

/-! ## Key-store lifecycle state machine

The operations that ever touch the table (`db_manager.py`, bypass off),
as a step function for invariant reasoning. -/

/-- One store operation: creation (the route generates the random key,
passed here as data), deletion, validation, or listing. -/
inductive KeyOp where
  | createOp (key : String) (description : Option String) (now : Nat)
  | deleteOp (key : String)
  | validateOp (key : String) (now : Nat)
  | listOp
deriving Repr, DecidableEq

/-- The store after one operation (a failed create — duplicate key —
rolls back, leaving the store unchanged). -/
def stepOp (s : Store) : KeyOp → Store
  | .createOp key d now =>
    match DbManager.create_api_key false s key d now with
    | .ok (_, s') => s'
    | .error _ => s
  | .deleteOp key => (DbManager.delete_api_key false s key).2
  | .validateOp key now => (DbManager.validate_api_key false s key now).2
  | .listOp => s

/-- The store reached from the initial state by a sequence of operations. -/
def runOps (ops : List KeyOp) : Store :=
  ops.foldl stepOp initStore

/-- The spec's data-model invariant: stored keys pairwise distinct, ids
pairwise distinct and below the id sequence, and `last_used_at` null
exactly while the row was never successfully validated. -/
def StoreInv (s : Store) : Prop :=
  (s.rows.map (fun r => r.key)).Nodup ∧
  (s.rows.map (fun r => r.id)).Nodup ∧
  (∀ r ∈ s.rows, r.id < s.nextId) ∧
  (∀ r ∈ s.rows, (r.lastUsedAt = none ↔ r.usageCount = 0))

instance : DecidablePred StoreInv := fun s => by
  unfold StoreInv; infer_instance

/-! ## The admin check as the spec words it (for comparison)

The spec's glossary defines the bearer token as the opaque string the
`Authorization` header carries after the prefix `"Bearer "`, i.e. the full
suffix of the header.  Under that reading the admin check should compare
the whole suffix with the admin secret. -/

/-- Modelled from the spec's words: accept iff the entire suffix after
`"Bearer "` equals the admin secret; 401 on a missing/malformed header,
403 otherwise. -/
def adminCheckSpec (adminToken : String) (authorization : Option String) :
    AuthResult :=
  match authorization with
  | none => .unauthorized
  | some a =>
    if headerMalformed a then .unauthorized
    else
      let token : String := ⟨a.data.drop 7⟩
      if token == adminToken then .ok token else .forbidden

/-! ## Helper lemmas -/

theorem any_key_eq (l : List ApiKeyRow) (k : String) :
    l.any (fun r => r.key == k) = true ↔ ∃ r ∈ l, r.key = k := by
  simp [List.any_eq_true]

theorem chunkFrames_eq_map (model : String) (now : Nat) (ts : List String) :
    chunkFrames model now ts = ts.map (mkChunkFrame model now) := by
  induction ts with
  | nil => rfl
  | cons t ts ih => simp [chunkFrames, ih]

theorem filter_length_lt_iff (l : List ApiKeyRow) (k : String) :
    (l.filter (fun r => !(r.key == k))).length < l.length ↔
      ∃ r ∈ l, r.key = k := by
  induction l with
  | nil => simp
  | cons a l ih =>
    by_cases h : a.key = k
    · have hf : List.filter (fun r => !(r.key == k)) (a :: l) =
          List.filter (fun r => !(r.key == k)) l := by
        simp [List.filter_cons, h]
      rw [hf]
      constructor
      · intro _; exact ⟨a, List.mem_cons_self a l, h⟩
      · intro _
        exact Nat.lt_succ_of_le (List.length_filter_le _ l)
    · have hf : List.filter (fun r => !(r.key == k)) (a :: l) =
          a :: List.filter (fun r => !(r.key == k)) l := by
        simp [List.filter_cons, h]
      rw [hf]
      simp only [List.length_cons, Nat.succ_lt_succ_iff, ih, List.mem_cons]
      constructor
      · rintro ⟨r, hr, hk⟩; exact ⟨r, Or.inr hr, hk⟩
      · rintro ⟨r, rfl | hr, hk⟩
        · exact absurd hk h
        · exact ⟨r, hr, hk⟩

theorem validateUpdate_key (k : String) (now : Nat) (r : ApiKeyRow) :
    (DbManager.validateUpdate k now r).key = r.key := by
  unfold DbManager.validateUpdate
  split <;> rfl

theorem validateUpdate_id (k : String) (now : Nat) (r : ApiKeyRow) :
    (DbManager.validateUpdate k now r).id = r.id := by
  unfold DbManager.validateUpdate
  split <;> rfl

theorem rowsMatching_applyAction (s : Store) (a : DbAction) (key : String) :
    rowsMatching (applyAction s a) key = rowsMatching s key := by
  cases a with
  | checkExists k => rfl
  | atomicIncr k t =>
    simp only [applyAction, rowsMatching, List.countP_map]
    exact List.countP_congr (fun r _ => by
      simp [Function.comp, validateUpdate_key])

theorem usageOf_incr (key k : String) (t : Nat) (l : List ApiKeyRow) :
    ((l.map (DbManager.validateUpdate k t)).map
        (fun r => if r.key == key then r.usageCount else 0)).sum =
      (l.map (fun r => if r.key == key then r.usageCount else 0)).sum +
        (if k = key then l.countP (fun r => r.key == key) else 0) := by
  induction l with
  | nil => simp
  | cons a l ih =>
    simp only [List.map_cons, List.sum_cons, List.countP_cons]
    rw [ih]
    have ha : (if (DbManager.validateUpdate k t a).key == key then
        (DbManager.validateUpdate k t a).usageCount else 0) =
      (if a.key == key then a.usageCount else 0) +
        (if k = key then (if a.key == key then 1 else 0) else 0) := by
      unfold DbManager.validateUpdate
      by_cases h1 : a.key = k
      · subst h1
        by_cases h2 : a.key = key <;> simp [h2]
      · by_cases h2 : k = key
        · have h3 : a.key ≠ key := fun hh => h1 (hh.trans h2.symm)
          simp [h1, h2, h3]
        · simp [h1, h2]
    rw [ha]
    by_cases h2 : k = key <;> simp [h2] <;> omega

theorem usageOf_runTrace (key : String) (trace : List DbAction) (s : Store)
    (hone : rowsMatching s key = 1) :
    usageOf (runTrace s trace) key = usageOf s key + incrCount key trace := by
  induction trace generalizing s with
  | nil => simp [runTrace, incrCount]
  | cons a tr ih =>
    have h1 : rowsMatching (applyAction s a) key = 1 := by
      rw [rowsMatching_applyAction]; exact hone
    have hrec := ih (applyAction s a) h1
    show usageOf (runTrace (applyAction s a) tr) key = _
    rw [hrec]
    cases a with
    | checkExists k =>
      simp [applyAction, incrCount, List.countP_cons]
    | atomicIncr k t =>
      have hstep : usageOf (applyAction s (.atomicIncr k t)) key =
          usageOf s key + (if k = key then rowsMatching s key else 0) := by
        simp only [applyAction, usageOf, rowsMatching]
        exact usageOf_incr key k t s.rows
      rw [hstep, hone]
      simp only [incrCount, List.countP_cons]
      by_cases h2 : k = key <;> simp [h2] <;> omega

theorem interleaving_incrCount (key : String) (ls : List (List DbAction))
    (t : List DbAction) (h : Interleaving ls t) :
    incrCount key t = (ls.map (incrCount key)).sum := by
  induction h with
  | done => rfl
  | dropNil h ih => simpa [incrCount] using ih
  | pick h ih =>
    simp only [incrCount, List.countP_cons, List.map_cons, List.sum_cons]
      at ih ⊢
    omega
  | perm hp h ih =>
    rw [ih]
    exact (hp.map (incrCount key)).sum_eq.symm

theorem validateScript_incrCount (key : String) (th : Nat × Bool) :
    incrCount key (if th.2 then sqliteValidateScript key th.1
      else pgValidateScript key th.1) = 1 := by
  obtain ⟨t, b⟩ := th
  cases b <;>
    simp [incrCount, sqliteValidateScript, pgValidateScript,
      List.countP_cons]

theorem stepOp_delete (s : Store) (key : String) :
    stepOp s (.deleteOp key) =
      ⟨s.rows.filter (fun r => !(r.key == key)), s.nextId⟩ := rfl

theorem stepOp_validate_hit (s : Store) (key : String) (now : Nat)
    (hx : ∃ r ∈ s.rows, r.key = key) :
    stepOp s (.validateOp key now) =
      ⟨s.rows.map (DbManager.validateUpdate key now), s.nextId⟩ := by
  have hb := (any_key_eq s.rows key).mpr hx
  simp [stepOp, DbManager.validate_api_key, hb]

theorem stepOp_validate_miss (s : Store) (key : String) (now : Nat)
    (hx : ¬ ∃ r ∈ s.rows, r.key = key) :
    stepOp s (.validateOp key now) = s := by
  have hb : s.rows.any (fun r => r.key == key) = false := by
    rw [← Bool.not_eq_true, any_key_eq]
    exact hx
  simp [stepOp, DbManager.validate_api_key, hb]

theorem stepOp_create_dup (s : Store) (key : String) (d : Option String)
    (now : Nat) (hx : ∃ r ∈ s.rows, r.key = key) :
    stepOp s (.createOp key d now) = s := by
  have hb := (any_key_eq s.rows key).mpr hx
  simp [stepOp, DbManager.create_api_key, hb]

theorem stepOp_create_new (s : Store) (key : String) (d : Option String)
    (now : Nat) (hx : ¬ ∃ r ∈ s.rows, r.key = key) :
    stepOp s (.createOp key d now) =
      ⟨s.rows ++ [⟨s.nextId, key, d, now, none, 0⟩], s.nextId + 1⟩ := by
  have hb : s.rows.any (fun r => r.key == key) = false := by
    rw [← Bool.not_eq_true, any_key_eq]
    exact hx
  simp [stepOp, DbManager.create_api_key, hb]

theorem storeInv_init : StoreInv initStore := by decide

theorem storeInv_step (s : Store) (op : KeyOp) (h : StoreInv s) :
    StoreInv (stepOp s op) := by
  obtain ⟨hkeys, hids, hlt, hlast⟩ := h
  cases op with
  | listOp => exact ⟨hkeys, hids, hlt, hlast⟩
  | deleteOp key =>
    rw [stepOp_delete]
    refine ⟨?_, ?_, ?_, ?_⟩
    · exact hkeys.sublist ((List.filter_sublist s.rows).map _)
    · exact hids.sublist ((List.filter_sublist s.rows).map _)
    · intro r hr; exact hlt r (List.mem_of_mem_filter hr)
    · intro r hr; exact hlast r (List.mem_of_mem_filter hr)
  | validateOp key now =>
    by_cases hx : ∃ r ∈ s.rows, r.key = key
    · rw [stepOp_validate_hit s key now hx]
      have hkeymap : (s.rows.map (DbManager.validateUpdate key now)).map
          (fun r => r.key) = s.rows.map (fun r => r.key) := by
        rw [List.map_map]
        exact List.map_congr_left (fun r _ => validateUpdate_key key now r)
      have hidmap : (s.rows.map (DbManager.validateUpdate key now)).map
          (fun r => r.id) = s.rows.map (fun r => r.id) := by
        rw [List.map_map]
        exact List.map_congr_left (fun r _ => validateUpdate_id key now r)
      refine ⟨?_, ?_, ?_, ?_⟩
      · rw [hkeymap]; exact hkeys
      · rw [hidmap]; exact hids
      · intro r hr
        obtain ⟨r₀, hr₀, rfl⟩ := List.mem_map.mp hr
        rw [validateUpdate_id]
        exact hlt r₀ hr₀
      · intro r hr
        obtain ⟨r₀, hr₀, rfl⟩ := List.mem_map.mp hr
        unfold DbManager.validateUpdate
        by_cases hk : (r₀.key == key) = true
        · simp [hk]
        · simp only [hk, Bool.false_eq_true, if_false]
          exact hlast r₀ hr₀
    · rw [stepOp_validate_miss s key now hx]
      exact ⟨hkeys, hids, hlt, hlast⟩
  | createOp key d now =>
    by_cases hx : ∃ r ∈ s.rows, r.key = key
    · rw [stepOp_create_dup s key d now hx]
      exact ⟨hkeys, hids, hlt, hlast⟩
    · rw [stepOp_create_new s key d now hx]
      refine ⟨?_, ?_, ?_, ?_⟩
      · rw [List.map_append, List.nodup_append]
        refine ⟨hkeys, List.nodup_singleton _, ?_⟩
        intro a ha hb
        obtain ⟨r, hr, hrk⟩ := List.mem_map.mp ha
        simp only [List.map_cons, List.map_nil, List.mem_singleton] at hb
        exact hx ⟨r, hr, hrk.trans hb⟩
      · rw [List.map_append, List.nodup_append]
        refine ⟨hids, List.nodup_singleton _, ?_⟩
        intro a ha hb
        obtain ⟨r, hr, hrk⟩ := List.mem_map.mp ha
        simp only [List.map_cons, List.map_nil, List.mem_singleton] at hb
        have := hlt r hr
        omega
      · intro r hr
        rcases List.mem_append.mp hr with h2 | h2
        · exact Nat.lt_succ_of_lt (hlt r h2)
        · simp only [List.mem_singleton] at h2
          subst h2
          exact Nat.lt_succ_self _
      · intro r hr
        rcases List.mem_append.mp hr with h2 | h2
        · exact hlast r h2
        · simp only [List.mem_singleton] at h2
          subst h2
          simp

theorem storeInv_run (ops : List KeyOp) : StoreInv (runOps ops) := by
  suffices h : ∀ s, StoreInv s → StoreInv (ops.foldl stepOp s) from
    h initStore storeInv_init
  induction ops with
  | nil => exact fun s hs => hs
  | cons op ops ih => exact fun s hs => ih _ (storeInv_step s op hs)

theorem usage_mono_step (s : Store) (op : KeyOp) (h : StoreInv s) :
    ∀ r ∈ s.rows, ∀ r' ∈ (stepOp s op).rows, r'.id = r.id →
      r.usageCount ≤ r'.usageCount := by
  obtain ⟨hkeys, hids, hlt, hlast⟩ := h
  intro r hr r' hr' hid
  cases op with
  | listOp =>
    have he : r' = r := List.inj_on_of_nodup_map hids hr' hr hid
    rw [he]
  | deleteOp key =>
    rw [stepOp_delete] at hr'
    have he : r' = r :=
      List.inj_on_of_nodup_map hids (List.mem_of_mem_filter hr') hr hid
    rw [he]
  | validateOp key now =>
    by_cases hx : ∃ r ∈ s.rows, r.key = key
    · rw [stepOp_validate_hit s key now hx] at hr'
      obtain ⟨r₀, hr₀, rfl⟩ := List.mem_map.mp hr'
      have hid0 : r₀.id = r.id := by
        rw [← validateUpdate_id key now r₀]
        exact hid
      have he : r₀ = r := List.inj_on_of_nodup_map hids hr₀ hr hid0
      subst he
      unfold DbManager.validateUpdate
      by_cases hk : (r₀.key == key) = true
      · simp [hk]
      · simp [hk]
    · rw [stepOp_validate_miss s key now hx] at hr'
      have he : r' = r := List.inj_on_of_nodup_map hids hr' hr hid
      rw [he]
  | createOp key d now =>
    by_cases hx : ∃ r ∈ s.rows, r.key = key
    · rw [stepOp_create_dup s key d now hx] at hr'
      have he : r' = r := List.inj_on_of_nodup_map hids hr' hr hid
      rw [he]
    · rw [stepOp_create_new s key d now hx] at hr'
      rcases List.mem_append.mp hr' with h2 | h2
      · have he : r' = r := List.inj_on_of_nodup_map hids h2 hr hid
        rw [he]
      · simp only [List.mem_singleton] at h2
        subst h2
        have h3 := hlt r hr
        simp only at hid
        omega

theorem nextId_mono_step (s : Store) (op : KeyOp) :
    s.nextId ≤ (stepOp s op).nextId := by
  cases op with
  | listOp => exact le_refl _
  | deleteOp key => rw [stepOp_delete]
  | validateOp key now =>
    by_cases hx : ∃ r ∈ s.rows, r.key = key
    · rw [stepOp_validate_hit s key now hx]
    · rw [stepOp_validate_miss s key now hx]
  | createOp key d now =>
    by_cases hx : ∃ r ∈ s.rows, r.key = key
    · rw [stepOp_create_dup s key d now hx]
    · rw [stepOp_create_new s key d now hx]
      exact Nat.le_succ _

theorem no_resurrection_step (s : Store) (op : KeyOp) (i : Nat)
    (hi : i < s.nextId) (habs : ∀ r ∈ s.rows, r.id ≠ i) :
    ∀ r' ∈ (stepOp s op).rows, r'.id ≠ i := by
  intro r' hr'
  cases op with
  | listOp => exact habs r' hr'
  | deleteOp key =>
    rw [stepOp_delete] at hr'
    exact habs r' (List.mem_of_mem_filter hr')
  | validateOp key now =>
    by_cases hx : ∃ r ∈ s.rows, r.key = key
    · rw [stepOp_validate_hit s key now hx] at hr'
      obtain ⟨r₀, hr₀, rfl⟩ := List.mem_map.mp hr'
      rw [validateUpdate_id]
      exact habs r₀ hr₀
    · rw [stepOp_validate_miss s key now hx] at hr'
      exact habs r' hr'
  | createOp key d now =>
    by_cases hx : ∃ r ∈ s.rows, r.key = key
    · rw [stepOp_create_dup s key d now hx] at hr'
      exact habs r' hr'
    · rw [stepOp_create_new s key d now hx] at hr'
      rcases List.mem_append.mp hr' with h2 | h2
      · exact habs r' h2
      · simp only [List.mem_singleton] at h2
        subst h2
        simp only
        omega

theorem scripts_incr_sum (key : String) (threads : List (Nat × Bool)) :
    ((threads.map (fun th => if th.2 then sqliteValidateScript key th.1
        else pgValidateScript key th.1)).map (incrCount key)).sum =
      threads.length := by
  induction threads with
  | nil => rfl
  | cons th ths ih =>
    simp only [List.map_cons, List.sum_cons, ih, List.length_cons]
    rw [validateScript_incrCount]
    omega

/-! ## Claims -/

/-- C3: every streaming response is exactly a `[BEGIN]` sentinel frame,
then one chunk envelope per provider chunk in arrival order, then — only
when the provider raised — one `{error: true, message}` frame, then a
`[DONE]` sentinel; the stream always ends with `[DONE]`, and the
`["He", "llo"]` scenario yields exactly the 4 frames
`[BEGIN]`, chunk("He"), chunk("llo"), `[DONE]` in order. -/
theorem streaming_frame_sequence (model : String) (now : Nat)
    (chunks : List String) (failure : Option String) :
    (ddgs_streamer model now chunks failure).head? =
      some Frame.sentinelBegin ∧
    (ddgs_streamer model now chunks failure).getLast? =
      some Frame.sentinelDone ∧
    (ddgs_streamer model now chunks failure).length =
      chunks.length + 2 + (if failure.isSome then 1 else 0) ∧
    (∀ i (h : i < chunks.length),
      (ddgs_streamer model now chunks failure).get? (i + 1) =
        some (mkChunkFrame model now (chunks.get ⟨i, h⟩))) ∧
    (∀ msg, failure = some msg →
      (ddgs_streamer model now chunks failure).get? (chunks.length + 1) =
        some (Frame.errorFrame true msg)) ∧
    (failure = none →
      ddgs_streamer model now chunks failure =
        Frame.sentinelBegin ::
          (chunks.map (mkChunkFrame model now) ++ [Frame.sentinelDone])) ∧
    ddgs_streamer "llama-3.3-70b" now ["He", "llo"] none =
      [Frame.sentinelBegin, mkChunkFrame "llama-3.3-70b" now "He",
       mkChunkFrame "llama-3.3-70b" now "llo", Frame.sentinelDone] := by
  refine ⟨rfl, ?_, ?_, ?_, ?_, ?_, rfl⟩
  · have hrw : ddgs_streamer model now chunks failure =
        (Frame.sentinelBegin ::
          (chunkFrames model now chunks ++
            (match failure with
             | some msg => [Frame.errorFrame true msg]
             | none => []))) ++ [Frame.sentinelDone] := by
      simp [ddgs_streamer]
    rw [hrw, List.getLast?_concat]
  · cases failure <;>
      simp [ddgs_streamer, chunkFrames_eq_map]
  · intro i h
    have h1 : i < (chunks.map (mkChunkFrame model now)).length := by
      simpa using h
    simp only [ddgs_streamer, chunkFrames_eq_map, List.get?_cons_succ]
    rw [List.append_assoc, List.get?_append h1, List.get?_map,
      List.get?_eq_get h]
    rfl
  · rintro msg rfl
    have h1 : (chunks.map (mkChunkFrame model now)).length ≤ chunks.length := by
      simp
    simp only [ddgs_streamer, chunkFrames_eq_map, List.get?_cons_succ]
    rw [List.append_assoc, List.get?_append_right h1]
    simp
  · rintro rfl
    simp [ddgs_streamer, chunkFrames_eq_map]

/-- C3 witness: with one chunk and a provider failure `"boom"`, the frame
after the chunk is the error frame, and the malformed-free frame order of
the concrete scenario holds. -/
theorem streaming_frame_sequence_witness :
    (ddgs_streamer "m" 0 ["a"] (some "boom")).get? 2 =
      some (Frame.errorFrame true "boom") :=
  (streaming_frame_sequence "m" 0 ["a"] (some "boom")).2.2.2.2.1 "boom" rfl

/-- C4 counterexample: in bypass mode the access checks do **not** accept
a request with no Authorization header — FastAPI's required `Header(...)`
answers 422 before the bypass branch in the dependency body can run — so
"any bearer token or none passes both access checks" fails at the
header-less request. -/
theorem bypass_mode_counterexample :
    admin_route_auth true "tok" none = .unprocessable ∧
    admin_route_auth true "tok" none ≠ .ok "" ∧
    chat_route_auth true ⟨[], 1⟩ none 0 = (.unprocessable, ⟨[], 1⟩) ∧
    (chat_route_auth true ⟨[], 1⟩ none 0).1 ≠ .ok "" := by
  decide

/-- C4 (amended): with the bypass flag set, `create` returns a synthetic
record with no id and leaves the store untouched, `delete` and `validate`
return true for every key without touching the store, `list_all` is empty,
and both access checks accept every request that carries an Authorization
header — any value, well-formed or not — without consulting the store; a
request with **no** Authorization header is still rejected 422 by request
validation before either check (and its bypass branch) runs. -/
theorem bypass_mode_spec (s : Store) (key : String) (d : Option String)
    (now : Nat) (adminToken : String) (a : String) :
    DbManager.create_api_key true s key d now = .ok (⟨none, key, d, none⟩, s) ∧
    DbManager.delete_api_key true s key = (true, s) ∧
    DbManager.validate_api_key true s key now = (true, s) ∧
    DbManager.get_all_api_keys true s = [] ∧
    admin_route_auth true adminToken (some a) = .ok "" ∧
    chat_route_auth true s (some a) now = (.ok "", s) ∧
    admin_route_auth true adminToken none = .unprocessable ∧
    chat_route_auth true s none now = (.unprocessable, s) :=
  ⟨rfl, rfl, rfl, rfl, rfl, rfl, rfl, rfl⟩

/-- C6: in buffered mode, a provider result `r` yields one envelope with
object `"chat.completion"`, the resolved model, the current unix time, and
`choices[0] = {message: {role: "assistant", content: r}, finish_reason:
"stop", index: 0}`; a provider failure yields a 500 error whose detail
contains the provider's message. -/
theorem buffered_completion_spec (messages : List ChatMsg)
    (reqModel : Option String) (defaultModel : String)
    (provider : String → String → Except String String) (now : Nat) :
    (∀ r, provider (extractPrompt messages)
        (resolveModel defaultModel reqModel) = .ok r →
      chat_completions_buffered messages reqModel defaultModel provider now =
        .ok ⟨"cmpl-" ++ toString (now * 1000), "chat.completion", now,
             resolveModel defaultModel reqModel,
             [⟨⟨"assistant", r⟩, "stop", 0⟩]⟩) ∧
    (∀ e, provider (extractPrompt messages)
        (resolveModel defaultModel reqModel) = .error e →
      ∃ err : HttpError,
        chat_completions_buffered messages reqModel defaultModel provider
            now = .error err ∧
        err.status = 500 ∧ ∃ p, err.detail = p ++ e) := by
  constructor
  · intro r h
    unfold chat_completions_buffered
    simp only [h]
  · intro e h
    refine ⟨⟨500, "Внутренняя ошибка сервера: " ++
      httpErrorText ⟨500, "Ошибка генерации ответа: " ++ e⟩⟩, ?_, rfl, ?_⟩
    · unfold chat_completions_buffered
      simp only [h]
    · refine ⟨"Внутренняя ошибка сервера: " ++
        (toString (500 : Nat) ++ (": " ++ "Ошибка генерации ответа: ")), ?_⟩
      simp only [httpErrorText]
      rw [String.append_assoc, String.append_assoc, String.append_assoc,
        String.append_assoc]

/-- C6 witness: a stub provider returning `"Hello"` yields the single
envelope with content `"Hello"` and finish_reason `"stop"`. -/
theorem buffered_completion_spec_witness :
    chat_completions_buffered [⟨"user", "hi"⟩] (some "llama-3.3-70b")
        "llama-3.3-70b" (fun _ _ => .ok "Hello") 9 =
      .ok ⟨"cmpl-" ++ toString (9 * 1000), "chat.completion", 9,
           resolveModel "llama-3.3-70b" (some "llama-3.3-70b"),
           [⟨⟨"assistant", "Hello"⟩, "stop", 0⟩]⟩ :=
  (buffered_completion_spec [⟨"user", "hi"⟩] (some "llama-3.3-70b")
    "llama-3.3-70b" (fun _ _ => .ok "Hello") 9).1 "Hello" rfl

/-- C8: a requested model on the allow-list is used verbatim; an absent or
unknown model resolves to the configured default and the request still
succeeds — no error for unknown model names. -/
theorem model_resolution_spec (defaultModel m : String) :
    (m ∈ AVAILABLE_MODELS → resolveModel defaultModel (some m) = m) ∧
    (m ∉ AVAILABLE_MODELS →
      resolveModel defaultModel (some m) = defaultModel) ∧
    resolveModel defaultModel none = defaultModel ∧
    (∀ (messages : List ChatMsg) (reqModel : Option String) (now : Nat)
        (r : String),
      chat_completions_buffered messages reqModel defaultModel
          (fun _ _ => .ok r) now =
        .ok ⟨"cmpl-" ++ toString (now * 1000), "chat.completion", now,
             resolveModel defaultModel reqModel,
             [⟨⟨"assistant", r⟩, "stop", 0⟩]⟩) := by
  refine ⟨?_, ?_, rfl, fun _ _ _ _ => rfl⟩
  · intro hm
    have hne : m ≠ "" := by
      rintro rfl
      exact absurd hm (by decide)
    simp [resolveModel, hne, hm]
  · intro hm
    simp [resolveModel, hm]

/-- C8 witness: the unknown name `"not-a-real-model"` silently resolves to
the configured default. -/
theorem model_resolution_spec_witness :
    resolveModel "llama-3.3-70b" (some "not-a-real-model") =
      "llama-3.3-70b" :=
  (model_resolution_spec "llama-3.3-70b" "not-a-real-model").2.1 (by decide)

/-- C10: the empty-messages case is guarded — the prompt of an empty
message list is `""`, otherwise it is the last message's content, and a
request with no messages still reaches the provider and succeeds. -/
theorem empty_messages_guard (reqModel : Option String)
    (defaultModel : String) (now : Nat) (f : String → String → String) :
    extractPrompt [] = "" ∧
    (∀ (messages : List ChatMsg) (h : messages ≠ []),
      extractPrompt messages = (messages.getLast h).content) ∧
    chat_completions_buffered [] reqModel defaultModel
        (fun p mo => .ok (f p mo)) now =
      .ok ⟨"cmpl-" ++ toString (now * 1000), "chat.completion", now,
           resolveModel defaultModel reqModel,
           [⟨⟨"assistant", f "" (resolveModel defaultModel reqModel)⟩,
             "stop", 0⟩]⟩ := by
  refine ⟨rfl, ?_, rfl⟩
  intro messages h
  simp [extractPrompt, List.getLast?_eq_getLast _ h]

/-- C10 witness: the prompt of a one-message list is that message's
content. -/
theorem empty_messages_guard_witness :
    extractPrompt [⟨"user", "hi"⟩] = "hi" :=
  ((empty_messages_guard none "d" 0 (fun _ _ => "")).2.1
    [⟨"user", "hi"⟩] (by decide)).trans rfl

/-- C1: with bypass off, `validate(k)` returns true iff a row with key `k`
exists; on a hit the matching row's `usage_count` grows by exactly 1 and
its `last_used_at` becomes the current time while every other row is
untouched; on a miss it returns false and mutates nothing. -/
theorem validate_api_key_spec (s : Store) (key : String) (now : Nat) :
    ((DbManager.validate_api_key false s key now).1 = true ↔
      ∃ r ∈ s.rows, r.key = key) ∧
    ((¬ ∃ r ∈ s.rows, r.key = key) →
      DbManager.validate_api_key false s key now = (false, s)) ∧
    ((DbManager.validate_api_key false s key now).2.rows.length =
      s.rows.length) ∧
    ((DbManager.validate_api_key false s key now).2.nextId = s.nextId) ∧
    (∀ i (r : ApiKeyRow), s.rows.get? i = some r →
      ((r.key = key →
        (DbManager.validate_api_key false s key now).2.rows.get? i =
          some { r with usageCount := r.usageCount + 1,
                        lastUsedAt := some now }) ∧
       (r.key ≠ key →
        (DbManager.validate_api_key false s key now).2.rows.get? i =
          some r))) := by
  by_cases hx : ∃ r ∈ s.rows, r.key = key
  · have hb : s.rows.any (fun r => r.key == key) = true :=
      (any_key_eq s.rows key).mpr hx
    have hval : DbManager.validate_api_key false s key now =
        (true, ⟨s.rows.map (DbManager.validateUpdate key now), s.nextId⟩) := by
      simp [DbManager.validate_api_key, hb]
    refine ⟨by simp [hval, hx], fun h => absurd hx h, by simp [hval],
      by simp [hval], ?_⟩
    intro i r hr
    constructor
    · intro hk
      simp only [hval]
      rw [List.get?_map, hr]
      simp [DbManager.validateUpdate, hk]
    · intro hk
      simp only [hval]
      rw [List.get?_map, hr]
      simp [DbManager.validateUpdate, hk]
  · have hb : s.rows.any (fun r => r.key == key) = false := by
      rw [← Bool.not_eq_true, any_key_eq]
      exact hx
    have hval : DbManager.validate_api_key false s key now = (false, s) := by
      simp [DbManager.validate_api_key, hb]
    refine ⟨by simp [hval, hx], fun _ => hval, by simp [hval],
      by simp [hval], ?_⟩
    intro i r hr
    constructor
    · intro hk
      exact absurd ⟨r, List.get?_mem hr, hk⟩ hx
    · intro _
      simp only [hval]
      exact hr

/-- C1 witness: validating an unknown key on a one-row store returns false
and leaves the store untouched; validating the stored key bumps its count
to 1 and stamps `last_used_at`. -/
theorem validate_api_key_spec_witness :
    DbManager.validate_api_key false ⟨[⟨1, "k", none, 0, none, 0⟩], 2⟩
        "unknown" 7 =
      (false, ⟨[⟨1, "k", none, 0, none, 0⟩], 2⟩) :=
  (validate_api_key_spec ⟨[⟨1, "k", none, 0, none, 0⟩], 2⟩ "unknown" 7).2.1
    (by decide)

/-- C7: with bypass off, `delete(k)` removes exactly the rows whose key is
`k`, returns true iff a row was removed (false, not an error, on a miss);
the DELETE route answers 404 exactly when nothing was removed; and after a
delete of `k`, `validate(k)` returns false. -/
theorem delete_api_key_spec (s : Store) (key : String) (now : Nat) :
    ((DbManager.delete_api_key false s key).1 = true ↔
      ∃ r ∈ s.rows, r.key = key) ∧
    (∀ r, r ∈ (DbManager.delete_api_key false s key).2.rows ↔
      (r ∈ s.rows ∧ r.key ≠ key)) ∧
    ((¬ ∃ r ∈ s.rows, r.key = key) →
      DbManager.delete_api_key false s key = (false, s)) ∧
    ((DbManager.validate_api_key false
        (DbManager.delete_api_key false s key).2 key now).1 = false) ∧
    ((delete_api_key_route false s key).1 =
        .error ⟨404, "API ключ не найден"⟩ ↔ ¬ ∃ r ∈ s.rows, r.key = key) ∧
    ((delete_api_key_route false s key).1 = .ok ⟨"API ключ удален"⟩ ↔
      ∃ r ∈ s.rows, r.key = key) := by
  have hdel : DbManager.delete_api_key false s key =
      (decide ((s.rows.filter (fun r => !(r.key == key))).length <
        s.rows.length),
       ⟨s.rows.filter (fun r => !(r.key == key)), s.nextId⟩) := by
    simp [DbManager.delete_api_key]
  have hfst : (DbManager.delete_api_key false s key).1 = true ↔
      ∃ r ∈ s.rows, r.key = key := by
    rw [hdel]
    simpa using filter_length_lt_iff s.rows key
  have hmem : ∀ r, r ∈ (DbManager.delete_api_key false s key).2.rows ↔
      (r ∈ s.rows ∧ r.key ≠ key) := by
    intro r
    rw [hdel]
    simp [List.mem_filter]
  have hroute : delete_api_key_route false s key =
      (if (DbManager.delete_api_key false s key).1 then
        ((.ok ⟨"API ключ удален"⟩ : Except HttpError MessageResponse),
         (DbManager.delete_api_key false s key).2)
       else ((.error ⟨404, "API ключ не найден"⟩ :
          Except HttpError MessageResponse),
         (DbManager.delete_api_key false s key).2)) := rfl
  refine ⟨hfst, hmem, ?_, ?_, ?_, ?_⟩
  · intro hx
    have hfilter : s.rows.filter (fun r => !(r.key == key)) = s.rows := by
      rw [List.filter_eq_self]
      intro r hr
      simp only [Bool.not_eq_eq_eq_not, Bool.not_true, beq_eq_false_iff_ne,
        ne_eq]
      exact fun hk => hx ⟨r, hr, hk⟩
    rw [hdel, hfilter]
    simp
  · have hnone : ¬ ∃ r ∈ (DbManager.delete_api_key false s key).2.rows,
        r.key = key := by
      rintro ⟨r, hr, hk⟩
      exact ((hmem r).mp hr).2 hk
    have hb : (DbManager.delete_api_key false s key).2.rows.any
        (fun r => r.key == key) = false := by
      rw [← Bool.not_eq_true, any_key_eq]
      exact hnone
    simp [DbManager.validate_api_key, hb]
  · rw [hroute]
    by_cases hex : ∃ r ∈ s.rows, r.key = key
    · have h1 : (DbManager.delete_api_key false s key).1 = true :=
        hfst.mpr hex
      simp [h1, hex]
    · have h1 : (DbManager.delete_api_key false s key).1 = false := by
        rw [← Bool.not_eq_true, hfst]
        exact hex
      simp [h1, hex]
  · rw [hroute]
    by_cases hex : ∃ r ∈ s.rows, r.key = key
    · have h1 : (DbManager.delete_api_key false s key).1 = true :=
        hfst.mpr hex
      simp [h1, hex]
    · have h1 : (DbManager.delete_api_key false s key).1 = false := by
        rw [← Bool.not_eq_true, hfst]
        exact hex
      simp [h1, hex]

/-- C7 witness: deleting an absent key returns false without an error and
leaves the store unchanged. -/
theorem delete_api_key_spec_witness :
    DbManager.delete_api_key false ⟨[⟨1, "k", none, 0, none, 0⟩], 2⟩
        "unknown" =
      (false, ⟨[⟨1, "k", none, 0, none, 0⟩], 2⟩) :=
  (delete_api_key_spec ⟨[⟨1, "k", none, 0, none, 0⟩], 2⟩ "unknown" 0).2.2.1
    (by decide)

/-- C2 counterexample: two divergences from the claim at concrete inputs.
First, with admin secret `"s"`, the well-formed header `"Bearer s x"`
carries the bearer token `"s x"` (the suffix after `"Bearer "`), which
differs from the secret — the claim demands 403 — yet the code accepts it,
because `authorization.split(" ")[1]` keeps only the first space-separated
word `"s"`.  Second, a request with no Authorization header is answered
422 by FastAPI's required-header validation, not the claimed 401. -/
theorem admin_check_counterexample :
    admin_route_auth false "s" (some "Bearer s x") = .ok "s" ∧
    adminCheckSpec "s" (some "Bearer s x") = .forbidden ∧
    admin_route_auth false "s" (some "Bearer s x") ≠
      adminCheckSpec "s" (some "Bearer s x") ∧
    admin_route_auth false "s" none = .unprocessable ∧
    adminCheckSpec "s" none = .unauthorized ∧
    admin_route_auth false "s" none ≠ adminCheckSpec "s" none := by
  decide

/-- C2 (amended): bypass off — a request with no Authorization header is
rejected 422 by request validation before the check runs; a present but
empty or non-`"Bearer "`-prefixed header is rejected 401; otherwise the
**first space-separated word after "Bearer"** is compared with the admin
secret — mismatch is rejected 403, match is accepted.  In particular a
header `"Bearer " ++ t` whose token `t` contains no space is accepted iff
`t` equals the admin secret. -/
theorem admin_check_amended (adminToken : String) :
    admin_route_auth false adminToken none = .unprocessable ∧
    (∀ a, headerMalformed a = true →
      admin_route_auth false adminToken (some a) = .unauthorized) ∧
    (∀ a, headerMalformed a = false →
      admin_route_auth false adminToken (some a) =
        (if bearerWord a = adminToken then .ok (bearerWord a)
         else .forbidden)) ∧
    (∀ t : String, (∀ c ∈ t.data, c ≠ ' ') →
      admin_route_auth false adminToken (some ("Bearer " ++ t)) =
        (if t = adminToken then .ok t else .forbidden)) := by
  refine ⟨rfl, ?_, ?_, ?_⟩
  · intro a h
    simp [admin_route_auth, validate_admin_token, h]
  · intro a h
    by_cases hb : bearerWord a = adminToken <;>
      simp [admin_route_auth, validate_admin_token, h, hb]
  · intro t ht
    obtain ⟨l⟩ := t
    have hdata : ("Bearer " ++ String.mk l).data = bearerChars ++ l := rfl
    have hm : headerMalformed ("Bearer " ++ String.mk l) = false := by
      simp only [headerMalformed, hdata]
      simp [bearerChars, List.isPrefixOf_iff_prefix]
    have hw : bearerWord ("Bearer " ++ String.mk l) = String.mk l := by
      simp only [bearerWord, hdata]
      have hdrop : (bearerChars ++ l).drop 7 = l := by
        have h7 : bearerChars.length = 7 := rfl
        rw [← h7, List.drop_left]
      rw [hdrop]
      have htake : l.takeWhile (fun c => decide (c ≠ ' ')) = l := by
        rw [List.takeWhile_eq_self_iff]
        intro x hx
        simp [ht x hx]
      rw [htake]
    simp [admin_route_auth, validate_admin_token, hm, hw]

/-- C2 witness: a header carrying exactly the (space-free) admin secret is
accepted. -/
theorem admin_check_amended_witness :
    admin_route_auth false "tok" (some ("Bearer " ++ "tok")) =
      .ok "tok" := by
  have h := (admin_check_amended "tok").2.2.2 "tok" (by decide)
  simpa using h

/-- C5: N concurrent `validate` calls on an existing key increase its
stored usage count by exactly N, for every interleaving of their atomic
storage statements — the increment is a single atomic read-modify-write
statement at the storage layer (PostgreSQL `UPDATE … RETURNING`, SQLite a
single `UPDATE usage_count = usage_count + 1`), never a count read
followed by a count write, so no update is lost.  Each thread is a
timestamp plus a dialect flag (`true` = SQLite two-statement script,
`false` = PostgreSQL one-statement script). -/
theorem concurrent_validate_no_lost_updates (key : String)
    (threads : List (Nat × Bool)) (trace : List DbAction) (s : Store)
    (hinter : Interleaving
      (threads.map (fun th => if th.2 then sqliteValidateScript key th.1
        else pgValidateScript key th.1)) trace)
    (hone : rowsMatching s key = 1) :
    usageOf (runTrace s trace) key = usageOf s key + threads.length := by
  rw [usageOf_runTrace key trace s hone,
    interleaving_incrCount key _ trace hinter, scripts_incr_sum]

/-- C5 witness: two concurrent validations of the stored key `"k"` — one
through the SQLite script, one through the PostgreSQL script, interleaved —
raise its usage count from 0 by exactly 2. -/
theorem concurrent_validate_no_lost_updates_witness :
    usageOf (runTrace ⟨[⟨1, "k", none, 0, none, 0⟩], 2⟩
        [DbAction.checkExists "k", DbAction.atomicIncr "k" 3,
         DbAction.atomicIncr "k" 4]) "k" =
      usageOf ⟨[⟨1, "k", none, 0, none, 0⟩], 2⟩ "k" + 2 :=
  concurrent_validate_no_lost_updates "k" [(3, true), (4, false)]
    [DbAction.checkExists "k", DbAction.atomicIncr "k" 3,
     DbAction.atomicIncr "k" 4] ⟨[⟨1, "k", none, 0, none, 0⟩], 2⟩
    (Interleaving.pick (Interleaving.pick (Interleaving.dropNil
      (Interleaving.pick (Interleaving.dropNil Interleaving.done)))))
    (by decide)

/-- C9: the ApiKey store invariants hold in every state reachable from the
empty store and are preserved by every operation: stored keys and ids are
pairwise distinct, `last_used_at` is null exactly until the first
successful validation (usage count 0), each surviving row's usage count
never decreases, the id sequence never goes backwards, and a deleted row's
id (any id below the sequence not currently stored) never reappears. -/
theorem keystore_invariants :
    (∀ ops : List KeyOp, StoreInv (runOps ops)) ∧
    (∀ (s : Store) (op : KeyOp), StoreInv s → StoreInv (stepOp s op)) ∧
    (∀ (s : Store) (op : KeyOp), StoreInv s →
      ∀ r ∈ s.rows, ∀ r' ∈ (stepOp s op).rows, r'.id = r.id →
        r.usageCount ≤ r'.usageCount) ∧
    (∀ (s : Store) (op : KeyOp), s.nextId ≤ (stepOp s op).nextId) ∧
    (∀ (s : Store) (op : KeyOp) (i : Nat), i < s.nextId →
      (∀ r ∈ s.rows, r.id ≠ i) → ∀ r' ∈ (stepOp s op).rows, r'.id ≠ i) :=
  ⟨storeInv_run, storeInv_step, usage_mono_step, nextId_mono_step,
   no_resurrection_step⟩

/-- C9 witness: the invariant holds after validating the stored key of a
concrete one-row store that satisfies it. -/
theorem keystore_invariants_witness :
    StoreInv (stepOp ⟨[⟨1, "k", none, 0, none, 0⟩], 2⟩
      (KeyOp.validateOp "k" 5)) :=
  keystore_invariants.2.1 ⟨[⟨1, "k", none, 0, none, 0⟩], 2⟩
    (KeyOp.validateOp "k" 5) (by decide)

end DdgAi
